import Mathlib

/-!
# Habit tracker (`src/app/page.js`)

A shallow embedding of the logic of the `HabitTracker` component: the habit
list kept in component state, the handlers `addHabit`, `toggleHabit`,
`deleteHabit`, the derived values `calculateStreak` and `isCompletedToday`,
the start-up load effect and one tick of the reminder timer.

Platform services are explicit inputs of the definitions:

* the clock (`Date.now()`, `new Date()`) is a millisecond count `Int`;
* `Date.prototype.toISOString().split('T')[0]` is `toISODate t`, the
  proleptic Gregorian date of the UTC day `⌊t / 86400000⌋` (`isoDate`); the
  platform's limit of 10^8 days around the epoch is not modelled, a year
  beyond six digits is written with the digits it needs;
* the time zone of the host is a `Zone`: the offset of local time from UTC,
  as a function of the UTC instant and as a function of the local time
  (`getDate` and `setDate` work on local time, `toISOString` on UTC);
* `JSON.parse` is a function `String → Except JsError (List Habit)`;
* `localStorage.getItem('habits')` is an `Option String`;
* the Notification API is an `Option Permission` (`none`: no such API).
-/

namespace HabitTracker

/-! ## Data model -/

/-- A habit record, as built by `addHabit` and as read back from storage.
`completedDates` and `reminderTime` may be missing on a record that comes from
storage, which the source guards with `||` and `?.`. -/
structure Habit where
  id : Int
  name : String
  reminderTime : Option String
  completedDates : Option (List String)
  createdAt : String
deriving DecidableEq, Repr

/-- The add-form draft `newHabit`. -/
structure NewHabit where
  name : String
  reminderTime : String
deriving DecidableEq, Repr

/-- The component state: the four `useState` cells. -/
structure State where
  habits : List Habit
  showAddForm : Bool
  newHabit : NewHabit
  today : String
deriving DecidableEq, Repr

/-- The dates of a habit, with a missing array read as the empty one
(`habit.completedDates || []`). -/
def Habit.dates (habit : Habit) : List String :=
  habit.completedDates.getD []

/-! ## Platform functions -/

/-- Milliseconds per day. -/
def msPerDay : Int := 86400000

/-- Decimal digits of `n`, most significant first, at least `w` of them
(zero-padded on the left). -/
def padNat (w n : Nat) : List Char :=
  if w ≤ 1 ∧ n < 10 then [Nat.digitChar n]
  else padNat (w - 1) (n / 10) ++ [Nat.digitChar (n % 10)]
termination_by w + n
decreasing_by omega

/-- Year, month (1 to 12) and day of month (1 to 31) of the day index `z`
(days since 1970-01-01) in the proleptic Gregorian calendar. Days are counted
from 0000-03-01 and split into 400-year, 100-year, 4-year and 1-year
cycles. -/
def civilFromDays (z : Int) : Int × Int × Int :=
  let z0 := z + 719468
  let n400 := z0 / 146097
  let r400 := z0 % 146097
  let n100 := min (r400 / 36524) 3
  let r100 := r400 - n100 * 36524
  let n4 := r100 / 1461
  let r4 := r100 % 1461
  let n1 := min (r4 / 365) 3
  let doy := r4 - n1 * 365
  let y := 400 * n400 + 100 * n100 + 4 * n4 + n1
  let mp := (5 * doy + 2) / 153
  let d := doy - (153 * mp + 2) / 5 + 1
  let m := if mp < 10 then mp + 3 else mp - 9
  (if m ≤ 2 then y + 1 else y, m, d)

/-- The year field of `toISOString`: four digits for the years 0 to 9999,
otherwise a sign and six digits (more when the year needs them). -/
def yearChars (y : Int) : List Char :=
  if 0 ≤ y ∧ y ≤ 9999 then padNat 4 y.toNat
  else if 0 ≤ y then '+' :: padNat 6 y.toNat
  else '-' :: padNat 6 (-y).toNat

/-- The `YYYY-MM-DD` string of the day index `z`. -/
def isoDate (z : Int) : String :=
  let c := civilFromDays z
  String.mk (yearChars c.1 ++ '-' :: (padNat 2 c.2.1.toNat ++ '-' :: padNat 2 c.2.2.toNat))

/-- The expression `new Date(t).toISOString().split('T')[0]`: the UTC calendar
date of the instant `t` (milliseconds since the epoch). -/
def toISODate (t : Int) : String :=
  isoDate (t / msPerDay)

/-- ECMAScript `WhiteSpace` and `LineTerminator` code points, the characters
removed by `String.prototype.trim`. -/
def isTrimChar (c : Char) : Bool :=
  c.toNat ∈ [0x9, 0xA, 0xB, 0xC, 0xD, 0x20, 0xA0, 0x1680,
    0x2000, 0x2001, 0x2002, 0x2003, 0x2004, 0x2005, 0x2006, 0x2007, 0x2008,
    0x2009, 0x200A, 0x2028, 0x2029, 0x202F, 0x205F, 0x3000, 0xFEFF]

/-- The method `String.prototype.trim`. -/
def trim (s : String) : String :=
  String.mk ((s.data.dropWhile isTrimChar).reverse.dropWhile isTrimChar).reverse

/-- The call `padStart(2, '0')` of `String.prototype.padStart`. -/
def padStart2 (s : String) : String :=
  String.mk (List.replicate (2 - s.length) '0') ++ s

/-! ## Handlers -/

/-- The handler `addHabit`: rejected when the trimmed draft name is empty; otherwise a new
record is appended, the draft is cleared and the form is closed. `idClock` is
the reading of `Date.now()`, `dateClock` the one of `new Date()`. -/
def addHabit (idClock dateClock : Int) (s : State) : State :=
  if trim s.newHabit.name = "" then s
  else
    let habit : Habit :=
      { id := idClock
        name := s.newHabit.name
        reminderTime := some s.newHabit.reminderTime
        completedDates := some []
        createdAt := toISODate dateClock }
    { s with
      habits := s.habits ++ [habit]
      newHabit := { name := "", reminderTime := "" }
      showAddForm := false }

/-- The callback that `toggleHabit` maps over the list. -/
def toggleOne (today : String) (id : Int) (habit : Habit) : Habit :=
  if habit.id = id then
    let completedDates := habit.completedDates.getD []
    let isCompleted := completedDates.contains today
    { habit with
      completedDates :=
        some (if isCompleted then completedDates.filter (fun d => d != today)
              else completedDates ++ [today]) }
  else habit

/-- The handler `toggleHabit`, reading `today` from the state. -/
def toggleHabit (id : Int) (s : State) : State :=
  { s with habits := s.habits.map (toggleOne s.today id) }

/-- The handler `deleteHabit`. -/
def deleteHabit (id : Int) (s : State) : State :=
  { s with habits := s.habits.filter (fun h => h.id != id) }

/-! ## Derived values -/

/-- The time zone of the host: `utcOffset t` is the offset (local minus UTC, in
milliseconds) in force at the UTC instant `t`, `localOffset tl` the offset the
platform applies to the local time `tl` when it converts it back to UTC. -/
structure Zone where
  utcOffset : Int → Int
  localOffset : Int → Int

/-- The local time of the UTC instant `t` (ECMAScript `LocalTime`). -/
def localTime (zone : Zone) (t : Int) : Int :=
  t + zone.utcOffset t

/-- The UTC instant of the local time `tl` (ECMAScript `UTC`). -/
def utcOfLocal (zone : Zone) (tl : Int) : Int :=
  tl - zone.localOffset tl

/-- The method `Date.prototype.getDate`: the day of the month of the instant `t`
in local time. -/
def getDate (zone : Zone) (t : Int) : Int :=
  (civilFromDays (localTime zone t / msPerDay)).2.2

/-- The method `Date.prototype.setDate`: the instant whose local time has the
year, the month and the time of day of the local time of `t`, and the day
`date` counted from the first of that month (`date` may be zero or negative,
which reaches into the months before). -/
def setDate (zone : Zone) (t : Int) (date : Int) : Int :=
  let tl := localTime zone t
  let monthStart := tl / msPerDay - ((civilFromDays (tl / msPerDay)).2.2 - 1)
  let newDate := (monthStart + date - 1) * msPerDay + tl % msPerDay
  utcOfLocal zone newDate

/-- The string `checkDateStr` of loop round `i`: `checkDate` is set to the
local day `getDate() - i` and rendered as a UTC date. -/
def checkDateStr (zone : Zone) (currentDate : Int) (i : Nat) : String :=
  toISODate (setDate zone currentDate (getDate zone currentDate - (i : Int)))

/-- The `for` loop of `calculateStreak`, from round `i` with `streak` counted
so far. -/
def streakLoop (zone : Zone) (currentDate : Int) (sortedDates : List String)
    (i streak : Nat) : Nat :=
  if i < sortedDates.length then
    if sortedDates.contains (checkDateStr zone currentDate i) then
      streakLoop zone currentDate sortedDates (i + 1) (streak + 1)
    else streak
  else streak
termination_by sortedDates.length - i

/-- The function `calculateStreak`, with `currentDate` the reading of
`new Date()` and `zone` the time zone of the host. -/
def calculateStreak (zone : Zone) (currentDate : Int) (habit : Habit) : Nat :=
  match habit.completedDates with
  | none => 0
  | some completedDates =>
    if completedDates.length = 0 then 0
    else
      let sortedDates := (completedDates.mergeSort (fun a b => decide (a ≤ b))).reverse
      streakLoop zone currentDate sortedDates 0 0

/-- The zone keeps its offset over the first `k` rounds of the streak loop:
the offset applied to the local time of each round `i < k` is the offset in
force at the clock reading `t`. It holds for every `k` in a zone whose offset
never changes. -/
def Zone.steadyFor (zone : Zone) (t : Int) (k : Nat) : Prop :=
  ∀ i : Nat, i < k →
    zone.localOffset (localTime zone t - (i : Int) * msPerDay) = zone.utcOffset t

/-- The function `isCompletedToday`. -/
def isCompletedToday (today : String) (habit : Habit) : Bool :=
  match habit.completedDates with
  | none => false
  | some completedDates => completedDates.contains today

/-! ## Start-up load and reminder tick -/

/-- An exception raised by the platform: `JSON.parse` on malformed text
(`SyntaxError`), or a call on a value of the wrong shape (`TypeError`). -/
inductive JsError where
  | syntaxError
  | typeError
deriving DecidableEq, Repr

/-- The values of `Notification.permission`. -/
inductive Permission where
  | default
  | granted
  | denied
deriving DecidableEq, Repr

/-- The arguments of one `new Notification(title, options)` call. -/
structure Notification where
  title : String
  body : String
  icon : String
  badge : String
deriving DecidableEq, Repr

/-- The state right after the `useState` initialisers ran; `today` is the date
read at mount. -/
def initialState (today : String) : State :=
  { habits := []
    showAddForm := false
    newHabit := { name := "", reminderTime := "" }
    today := today }

/-- The outcome of the mount effect when it runs to its end: the state, and
that `checkReminders()` was reached and installed the timer. -/
structure Mounted where
  state : State
  remindersStarted : Bool
deriving DecidableEq, Repr

/-- The mount effect (first `useEffect`). `stored` is what
`localStorage.getItem('habits')` returns; an exception of `JSON.parse` is not
caught and ends the effect. -/
def loadEffect (parse : String → Except JsError (List Habit)) (stored : Option String)
    (s : State) : Except JsError Mounted :=
  match stored with
  | none => .ok { state := s, remindersStarted := true }
  | some text =>
    if text = "" then .ok { state := s, remindersStarted := true }
    else
      match parse text with
      | .error e => .error e
      | .ok habits => .ok { state := { s with habits := habits }, remindersStarted := true }

/-- The string `currentTime` of a tick, from `getHours()` and `getMinutes()`. -/
def currentTime (hours minutes : Nat) : String :=
  padStart2 (toString hours) ++ ":" ++ padStart2 (toString minutes)

/-- The notification a tick builds for `habit`. -/
def reminderFor (habit : Habit) : Notification :=
  { title := "Habit Reminder"
    body := "Time to complete: " ++ habit.name
    icon := "⭐"
    badge := "⭐" }

/-- The `forEach` callback of a tick, with the notifications issued so far as
accumulator. `permission` is `none` when `'Notification' in window` is
false. -/
def remindOne (permission : Option Permission) (time today : String)
    (fired : List Notification) (habit : Habit) : List Notification :=
  let included :=
    match habit.completedDates with
    | none => false
    | some completedDates => completedDates.contains today
  if habit.reminderTime = some time ∧ included = false then
    if permission = some Permission.granted then fired ++ [reminderFor habit]
    else fired
  else fired

/-- One run of the `setInterval` callback of `checkReminders`: the
notifications it issues, in order, or the exception that ends it. `now` is
the instant of `new Date()`, `hours` and `minutes` its local-time fields. -/
def reminderTick (parse : String → Except JsError (List Habit)) (stored : Option String)
    (permission : Option Permission) (now : Int) (hours minutes : Nat) :
    Except JsError (List Notification) :=
  match stored with
  | none => .ok []
  | some text =>
    if text = "" then .ok []
    else
      match parse text with
      | .error e => .error e
      | .ok habits =>
        .ok (habits.foldl (remindOne permission (currentTime hours minutes) (toISODate now)) [])

/-! ## Reachable states -/

/-- States the component can be in: the initial one, closed under editing the
draft, the three handlers, and a change of `today` (a later mount reads the
date anew while the list comes back from storage). -/
inductive Reachable : State → Prop
  | init (today : String) : Reachable (initialState today)
  | edit (s : State) (draft : NewHabit) (showForm : Bool) :
      Reachable s → Reachable { s with newHabit := draft, showAddForm := showForm }
  | newDay (s : State) (today : String) : Reachable s → Reachable { s with today := today }
  | add (s : State) (idClock dateClock : Int) :
      Reachable s → Reachable (addHabit idClock dateClock s)
  | toggle (s : State) (id : Int) : Reachable s → Reachable (toggleHabit id s)
  | delete (s : State) (id : Int) : Reachable s → Reachable (deleteHabit id s)

/-! ## Sample inputs -/

/-- A state with one habit, created at clock reading `1704096000000`, and the
draft of a second one typed in. -/
def clashState : State :=
  { habits :=
      [{ id := 1704096000000
         name := "Run"
         reminderTime := some "07:00"
         completedDates := some []
         createdAt := "2024-01-01" }]
    showAddForm := true
    newHabit := { name := "Read", reminderTime := "" }
    today := "2024-01-01" }

/-- The zone `America/New_York` over the year 2024: five hours behind UTC,
four hours behind from 2024-03-10T07:00Z to 2024-11-03T06:00Z. The local
times skipped on 2024-03-10 and the ones repeated on 2024-11-03 take the
offset in force before the change. -/
def newYork2024 : Zone :=
  { utcOffset := fun t =>
      if 1710054000000 ≤ t ∧ t < 1730613600000 then -14400000 else -18000000
    localOffset := fun tl =>
      if 1710039600000 ≤ tl ∧ tl < 1730599200000 then -14400000 else -18000000 }

/-- A habit as it can come back from storage, for the streak samples. -/
def habitWith (completedDates : List String) : Habit :=
  { id := 1704096000000
    name := "Run"
    reminderTime := some "07:00"
    completedDates := some completedDates
    createdAt := "2024-01-01" }

/-- A state on 2024-03-10 whose one habit has that day stored twice. -/
def doubledState : State :=
  { habits := [habitWith ["2024-03-10", "2024-03-10"]]
    showAddForm := false
    newHabit := { name := "", reminderTime := "" }
    today := "2024-03-10" }

/-- A stand-in for `JSON.parse` that agrees with it on the two texts it is used
at: `[]` parses to the empty list, `oops` raises a `SyntaxError`. -/
def sampleParse (text : String) : Except JsError (List Habit) :=
  if text = "[]" then .ok [] else .error JsError.syntaxError

/-- Three stored habits due at 07:05: one not done today, one done today, one
without a dates array; and a fourth without a reminder. -/
def sampleHabits : List Habit :=
  [{ id := 1, name := "Run", reminderTime := some "07:05",
     completedDates := some ["2024-01-02"], createdAt := "2024-01-01" },
   { id := 2, name := "Read", reminderTime := some "07:05",
     completedDates := some ["2024-01-03"], createdAt := "2024-01-01" },
   { id := 3, name := "Nap", reminderTime := some "07:05",
     completedDates := none, createdAt := "2024-01-01" },
   { id := 4, name := "Walk", reminderTime := some "",
     completedDates := some [], createdAt := "2024-01-01" }]

/-! ## The date rendering is injective -/

theorem padNat_unfold (w n : Nat) :
    padNat w n =
      if w ≤ 1 ∧ n < 10 then [Nat.digitChar n]
      else padNat (w - 1) (n / 10) ++ [Nat.digitChar (n % 10)] := by
  rw [padNat]

theorem digitChar_inj : ∀ a < 10, ∀ b < 10, Nat.digitChar a = Nat.digitChar b → a = b := by
  decide

theorem digitChar_ne_sign : ∀ a < 10, Nat.digitChar a ≠ '+' ∧ Nat.digitChar a ≠ '-' := by
  decide

theorem padNat_ne_nil (w n : Nat) : padNat w n ≠ [] := by
  rw [padNat]
  split <;> simp

theorem padNat_head (w n : Nat) : ∃ k, k < 10 ∧ ∃ t, padNat w n = Nat.digitChar k :: t := by
  induction w, n using padNat.induct with
  | case1 w n h =>
    rw [padNat, if_pos h]
    exact ⟨n, h.2, [], rfl⟩
  | case2 w n h ih =>
    rw [padNat, if_neg h]
    obtain ⟨k, hk, t, ht⟩ := ih
    exact ⟨k, hk, t ++ [Nat.digitChar (n % 10)], by rw [ht]; rfl⟩

theorem padNat_inj (w n m : Nat) (h : padNat w n = padNat w m) : n = m := by
  induction w, n using padNat.induct generalizing m with
  | case1 w n hn =>
    rw [padNat, if_pos hn] at h
    rw [padNat_unfold w m] at h
    split at h
    · rename_i hm
      simp only [List.cons.injEq, and_true] at h
      exact digitChar_inj n hn.2 m hm.2 h
    · have := padNat_ne_nil (w - 1) (m / 10)
      cases hp : padNat (w - 1) (m / 10) with
      | nil => exact absurd hp this
      | cons a t => rw [hp] at h; simp at h
  | case2 w n hn ih =>
    rw [padNat, if_neg hn] at h
    rw [padNat_unfold w m] at h
    split at h
    · have := padNat_ne_nil (w - 1) (n / 10)
      cases hp : padNat (w - 1) (n / 10) with
      | nil => exact absurd hp this
      | cons a t => rw [hp] at h; simp at h
    · obtain ⟨h1, h2⟩ := List.append_inj' h rfl
      have e1 := ih _ h1
      simp only [List.cons.injEq, and_true] at h2
      have e2 := digitChar_inj _ (Nat.mod_lt _ (by decide)) _ (Nat.mod_lt _ (by decide)) h2
      omega

theorem padNat_two_length (n : Nat) (h : n < 100) : (padNat 2 n).length = 2 := by
  rw [padNat, if_neg (by omega)]
  rw [padNat, if_pos (by omega)]
  rfl

theorem yearChars_inj (y1 y2 : Int) (h : yearChars y1 = yearChars y2) : y1 = y2 := by
  unfold yearChars at h
  obtain ⟨k1, hk1, t1, e1⟩ := padNat_head 4 y1.toNat
  obtain ⟨k2, hk2, t2, e2⟩ := padNat_head 4 y2.toNat
  have s1 := digitChar_ne_sign k1 hk1
  have s2 := digitChar_ne_sign k2 hk2
  split_ifs at h with a1 a2 a3 a4 a5 a6 a7
  · have := padNat_inj _ _ _ h
    omega
  · rw [e1] at h; simp only [List.cons.injEq] at h; exact absurd h.1 s1.1
  · rw [e1] at h; simp only [List.cons.injEq] at h; exact absurd h.1 s1.2
  · rw [e2] at h; simp only [List.cons.injEq] at h; exact absurd h.1.symm s2.1
  · simp only [List.cons.injEq, true_and] at h
    have := padNat_inj _ _ _ h
    omega
  · simp only [List.cons.injEq] at h; exact absurd h.1 (by decide)
  · rw [e2] at h; simp only [List.cons.injEq] at h; exact absurd h.1.symm s2.2
  · simp only [List.cons.injEq] at h; exact absurd h.1 (by decide)
  · simp only [List.cons.injEq, true_and] at h
    have := padNat_inj _ _ _ h
    omega

/-- The cycle counts behind `civilFromDays z`, with their ranges. -/
theorem civilFromDays_spec (z : Int) :
    ∃ n400 n100 n4 n1 doy mp : Int,
      0 ≤ n100 ∧ n100 ≤ 3 ∧ 0 ≤ n4 ∧ n4 ≤ 24 ∧ 0 ≤ n1 ∧ n1 ≤ 3 ∧ 0 ≤ doy ∧ doy ≤ 365 ∧
      0 ≤ mp ∧ mp ≤ 11 ∧ (153 * mp + 2) / 5 ≤ doy ∧ doy ≤ (153 * mp + 2) / 5 + 30 ∧
      z + 719468 = 146097 * n400 + 36524 * n100 + 1461 * n4 + 365 * n1 + doy ∧
      civilFromDays z =
        (if (if mp < 10 then mp + 3 else mp - 9) ≤ 2
            then 400 * n400 + 100 * n100 + 4 * n4 + n1 + 1
            else 400 * n400 + 100 * n100 + 4 * n4 + n1,
          if mp < 10 then mp + 3 else mp - 9,
          doy - (153 * mp + 2) / 5 + 1) := by
  simp only [civilFromDays]
  generalize h400 : (z + 719468) / 146097 = n400
  generalize hr400 : (z + 719468) % 146097 = r400
  have b400 : 0 ≤ r400 ∧ r400 < 146097 ∧ z + 719468 = 146097 * n400 + r400 := by omega
  clear h400 hr400
  generalize h100 : min (r400 / 36524) 3 = n100
  have b100 : 0 ≤ n100 ∧ n100 ≤ 3 ∧ 0 ≤ r400 - n100 * 36524 ∧ r400 - n100 * 36524 ≤ 36524 := by
    omega
  clear h100
  generalize hr100 : r400 - n100 * 36524 = r100 at b100 ⊢
  generalize h4 : r100 / 1461 = n4
  generalize hr4 : r100 % 1461 = r4
  have b4 : 0 ≤ n4 ∧ n4 ≤ 24 ∧ 0 ≤ r4 ∧ r4 ≤ 1460 ∧ r100 = 1461 * n4 + r4 := by omega
  clear h4 hr4
  generalize h1 : min (r4 / 365) 3 = n1
  have b1 : 0 ≤ n1 ∧ n1 ≤ 3 ∧ 0 ≤ r4 - n1 * 365 ∧ r4 - n1 * 365 ≤ 365 := by omega
  clear h1
  generalize hdoy : r4 - n1 * 365 = doy at b1 ⊢
  generalize hmp : (5 * doy + 2) / 153 = mp
  have bmp : 0 ≤ mp ∧ mp ≤ 11 ∧ (153 * mp + 2) / 5 ≤ doy ∧ doy ≤ (153 * mp + 2) / 5 + 30 := by
    omega
  refine ⟨n400, n100, n4, n1, doy, mp, ?_, ?_, ?_, ?_, ?_, ?_, ?_, ?_, ?_, ?_, ?_, ?_, ?_, rfl⟩ <;>
    omega

theorem civilFromDays_injective : Function.Injective civilFromDays := by
  intro z1 z2 h
  obtain ⟨a1, b1, c1, e1, doy1, mp1, p1, p2, p3, p4, p5, p6, p7, p8, p9, p10, p11, p12, hz1, hc1⟩ :=
    civilFromDays_spec z1
  obtain ⟨a2, b2, c2, e2, doy2, mp2, q1, q2, q3, q4, q5, q6, q7, q8, q9, q10, q11, q12, hz2, hc2⟩ :=
    civilFromDays_spec z2
  rw [hc1, hc2] at h
  simp only [Prod.mk.injEq] at h
  obtain ⟨hy, hm, hd⟩ := h
  have hmp : mp1 = mp2 := by
    split_ifs at hm <;> omega
  subst hmp
  have hdoy : doy1 = doy2 := by omega
  subst hdoy
  have hyy : 400 * a1 + 100 * b1 + 4 * c1 + e1 = 400 * a2 + 100 * b2 + 4 * c2 + e2 := by
    split_ifs at hy <;> omega
  omega

theorem civilFromDays_month (z : Int) :
    1 ≤ (civilFromDays z).2.1 ∧ (civilFromDays z).2.1 ≤ 12 := by
  obtain ⟨a1, b1, c1, e1, doy1, mp1, p1, p2, p3, p4, p5, p6, p7, p8, p9, p10, p11, p12, hz1, hc1⟩ :=
    civilFromDays_spec z
  rw [hc1]
  simp only
  split_ifs <;> omega

theorem civilFromDays_day (z : Int) :
    1 ≤ (civilFromDays z).2.2 ∧ (civilFromDays z).2.2 ≤ 31 := by
  obtain ⟨a1, b1, c1, e1, doy1, mp1, p1, p2, p3, p4, p5, p6, p7, p8, p9, p10, p11, p12, hz1, hc1⟩ :=
    civilFromDays_spec z
  rw [hc1]
  simp only
  omega

/-- Distinct days have distinct `YYYY-MM-DD` strings. -/
theorem isoDate_injective : Function.Injective isoDate := by
  intro z1 z2 h
  have m1 := civilFromDays_month z1
  have m2 := civilFromDays_month z2
  have d1 := civilFromDays_day z1
  have d2 := civilFromDays_day z2
  have h := congrArg String.data h
  simp only [isoDate] at h
  have hlen : ∀ (m d : Int), 1 ≤ m → m ≤ 12 → 1 ≤ d → d ≤ 31 →
      ('-' :: (padNat 2 m.toNat ++ '-' :: padNat 2 d.toNat)).length = 6 := by
    intro m d h1 h2 h3 h4
    simp only [List.length_cons, List.length_append]
    rw [padNat_two_length _ (by omega), padNat_two_length _ (by omega)]
  obtain ⟨hy, ht⟩ := List.append_inj' h
    ((hlen _ _ m1.1 m1.2 d1.1 d1.2).trans (hlen _ _ m2.1 m2.2 d2.1 d2.2).symm)
  simp only [List.cons.injEq, true_and] at ht
  obtain ⟨hm, hd⟩ := List.append_inj ht
    ((padNat_two_length _ (by omega)).trans (padNat_two_length _ (by omega)).symm)
  simp only [List.cons.injEq, true_and] at hd
  have ey := yearChars_inj _ _ hy
  have em := padNat_inj _ _ _ hm
  have ed := padNat_inj _ _ _ hd
  apply civilFromDays_injective
  apply Prod.ext
  · exact ey
  · apply Prod.ext
    · show (civilFromDays z1).2.1 = (civilFromDays z2).2.1
      omega
    · show (civilFromDays z1).2.2 = (civilFromDays z2).2.2
      omega

/-! ## The streak loop -/

/-- Setting the local day to `getDate() - i` moves the local time back by `i`
whole days. -/
theorem setDate_getDate (zone : Zone) (t : Int) (i : Nat) :
    setDate zone t (getDate zone t - (i : Int)) =
      utcOfLocal zone (localTime zone t - (i : Int) * msPerDay) := by
  unfold setDate getDate
  simp only
  congr 1
  generalize (civilFromDays (localTime zone t / msPerDay)).2.2 = d
  generalize localTime zone t = tl
  unfold msPerDay
  omega

/-- When the offset applied in round `i` is the one in force at the clock
reading, the round tests the UTC date `i` days before the current one. -/
theorem checkDateStr_of_steady (zone : Zone) (t : Int) (i : Nat)
    (h : zone.localOffset (localTime zone t - (i : Int) * msPerDay) = zone.utcOffset t) :
    checkDateStr zone t i = isoDate (t / msPerDay - (i : Int)) := by
  unfold checkDateStr
  rw [setDate_getDate]
  unfold utcOfLocal
  rw [h]
  unfold localTime toISODate msPerDay
  congr 1
  omega

theorem steadyFor_mono (zone : Zone) (t : Int) (k1 k2 : Nat) (hk : k1 ≤ k2)
    (h : zone.steadyFor t k2) : zone.steadyFor t k1 :=
  fun i hi => h i (Nat.lt_of_lt_of_le hi hk)

theorem streakLoop_unfold (zone : Zone) (t : Int) (L : List String) (i s : Nat) :
    streakLoop zone t L i s =
      if i < L.length then
        if L.contains (checkDateStr zone t i) then streakLoop zone t L (i + 1) (s + 1)
        else s
      else s := by
  rw [streakLoop]

theorem streakLoop_present (zone : Zone) (t : Int) (L : List String) (i s : Nat)
    (hlt : i < L.length) (hc : checkDateStr zone t i ∈ L) :
    streakLoop zone t L i s = streakLoop zone t L (i + 1) (s + 1) := by
  rw [streakLoop_unfold, if_pos hlt, if_pos (by simpa using hc)]

theorem streakLoop_absent (zone : Zone) (t : Int) (L : List String) (i s : Nat)
    (hlt : i < L.length) (hc : checkDateStr zone t i ∉ L) :
    streakLoop zone t L i s = s := by
  rw [streakLoop_unfold, if_pos hlt, if_neg (by simpa using hc)]

theorem streakLoop_done (zone : Zone) (t : Int) (L : List String) (i s : Nat)
    (hge : L.length ≤ i) : streakLoop zone t L i s = s := by
  rw [streakLoop_unfold, if_neg (by omega)]

/-- What the loop returns from round `i`: it adds the number `k` of rounds it
passes, each of which found its date, and it stops either at a date that is
missing or at the length bound. -/
theorem streakLoop_spec (zone : Zone) (t : Int) (L : List String) (i s : Nat) :
    ∃ k, streakLoop zone t L i s = s + k ∧ (∀ j, j < k → checkDateStr zone t (i + j) ∈ L) ∧
      (i + k < L.length → checkDateStr zone t (i + k) ∉ L) ∧
      (i ≤ L.length → i + k ≤ L.length) := by
  induction i, s using streakLoop.induct zone t L with
  | case1 i s hlt hc ih =>
    obtain ⟨k, hk, hall, hstop, hle⟩ := ih
    refine ⟨k + 1, ?_, ?_, ?_, ?_⟩
    · rw [streakLoop, if_pos hlt, if_pos hc, hk]; omega
    · intro j hj
      rcases Nat.eq_zero_or_pos j with h0 | hpos
      · subst h0
        simpa using hc
      · have := hall (j - 1) (by omega)
        have e : i + 1 + (j - 1) = i + j := by omega
        rwa [e] at this
    · intro h
      have e : i + (k + 1) = i + 1 + k := by omega
      rw [e] at h ⊢
      exact hstop h
    · intro _
      have := hle (by omega)
      omega
  | case2 i s hlt hc =>
    refine ⟨0, ?_, ?_, ?_, ?_⟩
    · rw [streakLoop, if_pos hlt, if_neg hc]; rfl
    · intro j hj; omega
    · intro _; simpa using hc
    · intro h; simpa using h
  | case3 i s hge =>
    refine ⟨0, ?_, ?_, ?_, ?_⟩
    · rw [streakLoop, if_neg hge]; rfl
    · intro j hj; omega
    · intro h; exact absurd h hge
    · intro h; simpa using h

/-- The loop reads its list only through its length and through membership. -/
theorem streakLoop_congr (zone : Zone) (t : Int) (L1 L2 : List String)
    (hmem : ∀ x, x ∈ L1 ↔ x ∈ L2) (hlen : L1.length = L2.length) (i s : Nat) :
    streakLoop zone t L1 i s = streakLoop zone t L2 i s := by
  induction i, s using streakLoop.induct zone t L1 with
  | case1 i s hlt hc ih =>
    have hc1 : checkDateStr zone t i ∈ L1 := by simpa using hc
    rw [streakLoop_present zone t L1 i s hlt hc1,
      streakLoop_present zone t L2 i s (hlen ▸ hlt) ((hmem _).mp hc1), ih]
  | case2 i s hlt hc =>
    have hc1 : checkDateStr zone t i ∉ L1 := by simpa using hc
    rw [streakLoop_absent zone t L1 i s hlt hc1,
      streakLoop_absent zone t L2 i s (hlen ▸ hlt) (fun h => hc1 ((hmem _).mpr h))]
  | case3 i s hge =>
    rw [streakLoop_done zone t L1 i s (by omega), streakLoop_done zone t L2 i s (by omega)]

/-- A list cannot hold more distinct entries than its length. -/
theorem not_all_present (f : Nat → String) (hf : Function.Injective f) (L : List String) :
    ¬ ∀ j, j ≤ L.length → f j ∈ L := by
  intro h
  have hsub : (Finset.range (L.length + 1)).image f ⊆ L.toFinset := by
    intro x hx
    obtain ⟨j, hj, rfl⟩ := Finset.mem_image.mp hx
    exact List.mem_toFinset.mpr (h j (by have := Finset.mem_range.mp hj; omega))
  have h1 := Finset.card_le_card hsub
  rw [Finset.card_image_of_injective _ hf, Finset.card_range] at h1
  have h2 := List.toFinset_card_le L
  omega

theorem sortedDates_mem (cd : List String) (x : String) :
    x ∈ (cd.mergeSort (fun a b => decide (a ≤ b))).reverse ↔ x ∈ cd := by
  rw [List.mem_reverse]
  exact (List.mergeSort_perm cd _).mem_iff

theorem sortedDates_length (cd : List String) :
    (cd.mergeSort (fun a b => decide (a ≤ b))).reverse.length = cd.length := by
  rw [List.length_reverse]
  exact (List.mergeSort_perm cd _).length_eq

/-- The streak as the loop run on the dates themselves: sorting and reversing
change neither the length nor membership. -/
theorem calculateStreak_eq_loop (zone : Zone) (t : Int) (habit : Habit) :
    calculateStreak zone t habit =
      if habit.dates.length = 0 then 0 else streakLoop zone t habit.dates 0 0 := by
  unfold calculateStreak Habit.dates
  cases habit.completedDates with
  | none => simp
  | some cd =>
    simp only [Option.getD_some]
    split
    · rfl
    · exact streakLoop_congr zone t _ cd (sortedDates_mem cd) (sortedDates_length cd) 0 0

/-- The streak depends on the dates of a habit only through their number and
through membership. -/
theorem calculateStreak_congr (zone : Zone) (t : Int) (h1 h2 : Habit)
    (hmem : ∀ x, x ∈ h1.dates ↔ x ∈ h2.dates) (hlen : h1.dates.length = h2.dates.length) :
    calculateStreak zone t h1 = calculateStreak zone t h2 := by
  rw [calculateStreak_eq_loop, calculateStreak_eq_loop, hlen,
    streakLoop_congr zone t h1.dates h2.dates hmem hlen 0 0]

/-- The run behind `calculateStreak` in any zone: every round below the result
found its string, and the result is either a round whose string is missing or
the number of stored dates. -/
theorem calculateStreak_run (zone : Zone) (t : Int) (habit : Habit) :
    (∀ j, j < calculateStreak zone t habit → checkDateStr zone t j ∈ habit.dates) ∧
      (calculateStreak zone t habit < habit.dates.length →
        checkDateStr zone t (calculateStreak zone t habit) ∉ habit.dates) ∧
      calculateStreak zone t habit ≤ habit.dates.length := by
  rw [calculateStreak_eq_loop]
  split
  · refine ⟨fun j hj => absurd hj (Nat.not_lt_zero j), fun h => ?_, Nat.zero_le _⟩
    omega
  · obtain ⟨k, hk, hall, hstop, hle⟩ := streakLoop_spec zone t habit.dates 0 0
    have hk0 : streakLoop zone t habit.dates 0 0 = k := by omega
    rw [hk0]
    refine ⟨fun j hj => by simpa using hall j hj, fun h => ?_, by simpa using hle (Nat.zero_le _)⟩
    simpa using hstop (by simpa using h)

/-- In a zone that keeps its offset over the rounds of the loop, the streak is
the one `n` with the days `0 .. n-1` back present and the day `n` back
missing. -/
theorem calculateStreak_iff (zone : Zone) (t : Int) (habit : Habit)
    (hz : zone.steadyFor t habit.dates.length) (n : Nat) :
    calculateStreak zone t habit = n ↔
      (∀ i : Nat, i < n → isoDate (t / msPerDay - (i : Int)) ∈ habit.dates) ∧
        isoDate (t / msPerDay - (n : Int)) ∉ habit.dates := by
  obtain ⟨hall, hstop, hle⟩ := calculateStreak_run zone t habit
  have hinj : Function.Injective (fun j : Nat => isoDate (t / msPerDay - (j : Int))) := by
    intro a b hab
    have := isoDate_injective hab
    omega
  have hall2 : ∀ i : Nat, i < calculateStreak zone t habit →
      isoDate (t / msPerDay - (i : Int)) ∈ habit.dates := by
    intro i hi
    rw [← checkDateStr_of_steady zone t i (hz i (by omega))]
    exact hall i hi
  have hstop2 : isoDate (t / msPerDay - (calculateStreak zone t habit : Int)) ∉ habit.dates := by
    intro hmem
    rcases Nat.lt_or_ge (calculateStreak zone t habit) habit.dates.length with hlt | hge
    · apply hstop hlt
      rw [checkDateStr_of_steady zone t _ (hz _ hlt)]
      exact hmem
    · have hkeq : calculateStreak zone t habit = habit.dates.length := Nat.le_antisymm hle hge
      apply not_all_present _ hinj habit.dates
      intro j hj
      rcases Nat.lt_or_ge j (calculateStreak zone t habit) with h1 | h1
      · exact hall2 j h1
      · have : j = calculateStreak zone t habit := by omega
        rw [this]
        exact hmem
  constructor
  · intro h
    subst h
    exact ⟨hall2, hstop2⟩
  · rintro ⟨h1, h2⟩
    rcases Nat.lt_trichotomy (calculateStreak zone t habit) n with h | h | h
    · exact absurd (h1 _ h) hstop2
    · exact h
    · exact absurd (hall2 _ h) h2

/-- In a zone that keeps its offset over the rounds of the loop for both
habits, the streak depends on the dates only through membership. -/
theorem calculateStreak_congr_steady (zone : Zone) (t : Int) (h1 h2 : Habit)
    (hmem : ∀ x, x ∈ h1.dates ↔ x ∈ h2.dates) (hz1 : zone.steadyFor t h1.dates.length)
    (hz2 : zone.steadyFor t h2.dates.length) :
    calculateStreak zone t h1 = calculateStreak zone t h2 := by
  rw [calculateStreak_iff zone t h1 hz1 (calculateStreak zone t h2)]
  have := (calculateStreak_iff zone t h2 hz2 (calculateStreak zone t h2)).mp rfl
  simpa only [hmem] using this

/-! ## Toggling one habit -/

theorem isCompletedToday_eq (d : String) (h : Habit) :
    isCompletedToday d h = decide (d ∈ h.dates) := by
  unfold isCompletedToday Habit.dates
  cases h.completedDates <;> simp

theorem toggleOne_of_ne (d : String) (id : Int) (h : Habit) (hid : h.id ≠ id) :
    toggleOne d id h = h := by
  unfold toggleOne
  rw [if_neg hid]

theorem toggleOne_fields (d : String) (id : Int) (h : Habit) :
    (toggleOne d id h).id = h.id ∧ (toggleOne d id h).name = h.name ∧
      (toggleOne d id h).reminderTime = h.reminderTime ∧
      (toggleOne d id h).createdAt = h.createdAt := by
  unfold toggleOne
  split <;> simp

theorem toggled_mem (cd : List String) (d e : String) :
    e ∈ (if cd.contains d then cd.filter (fun x => x != d) else cd ++ [d]) ↔
      (e ∈ cd ∧ e ≠ d) ∨ (e = d ∧ d ∉ cd) := by
  by_cases hc : d ∈ cd
  · have hc2 : cd.contains d = true := by simpa using hc
    rw [hc2]
    simp [hc]
  · have hc2 : cd.contains d = false := by simpa using hc
    rw [hc2]
    simp only [Bool.false_eq_true, ↓reduceIte, List.mem_append, List.mem_singleton, hc,
      not_false_eq_true, and_true]
    constructor
    · rintro (h1 | h1)
      · left
        refine ⟨h1, ?_⟩
        rintro rfl
        exact hc h1
      · right; exact h1
    · rintro (h1 | h1)
      · left; exact h1.1
      · right; exact h1

theorem toggled_nodup (cd : List String) (d : String) (hn : cd.Nodup) :
    (if cd.contains d then cd.filter (fun x => x != d) else cd ++ [d]).Nodup := by
  by_cases hc : d ∈ cd
  · have hc2 : cd.contains d = true := by simpa using hc
    rw [hc2]
    exact hn.filter _
  · have hc2 : cd.contains d = false := by simpa using hc
    rw [hc2]
    exact List.Nodup.append hn (List.nodup_singleton d) (by simpa using hc)

/-- Membership in the dates of the toggled habit: the other dates stay, the
date `d` itself is swapped. -/
theorem toggleOne_mem (d : String) (id : Int) (h : Habit) (hid : h.id = id) (e : String) :
    e ∈ (toggleOne d id h).dates ↔ (e ∈ h.dates ∧ e ≠ d) ∨ (e = d ∧ d ∉ h.dates) := by
  unfold toggleOne
  rw [if_pos hid]
  exact toggled_mem (h.completedDates.getD []) d e

theorem toggleOne_nodup (d : String) (id : Int) (h : Habit) (hn : h.dates.Nodup) :
    (toggleOne d id h).dates.Nodup := by
  unfold toggleOne
  split
  · exact toggled_nodup (h.completedDates.getD []) d hn
  · exact hn

theorem toggleOne_twice_mem (d : String) (id : Int) (h : Habit) (e : String) :
    e ∈ (toggleOne d id (toggleOne d id h)).dates ↔ e ∈ h.dates := by
  by_cases hid : h.id = id
  · have hid2 : (toggleOne d id h).id = id := by rw [(toggleOne_fields d id h).1]; exact hid
    rw [toggleOne_mem d id _ hid2, toggleOne_mem d id h hid, toggleOne_mem d id h hid]
    by_cases hed : e = d
    · subst hed
      by_cases hm : e ∈ h.dates <;> simp [hm]
    · simp [hed]
  · rw [toggleOne_of_ne d id h hid, toggleOne_of_ne d id h hid]

theorem toggleOne_dates (d : String) (id : Int) (h : Habit) (hid : h.id = id) :
    (toggleOne d id h).dates =
      if h.dates.contains d then h.dates.filter (fun x => x != d) else h.dates ++ [d] := by
  unfold toggleOne
  rw [if_pos hid]
  rfl

theorem filter_ne_length (L : List String) (d : String) :
    (L.filter (fun x => x != d)).length + L.count d = L.length := by
  induction L with
  | nil => rfl
  | cons a t ih =>
    by_cases had : a = d
    · subst had
      simp only [List.filter_cons, bne_self_eq_false, Bool.false_eq_true, ↓reduceIte,
        List.count_cons_self, List.length_cons]
      omega
    · have hne : (a != d) = true := by simpa using had
      rw [List.filter_cons, if_pos hne, List.count_cons_of_ne (Ne.symm had), List.length_cons,
        List.length_cons]
      omega

/-- The number of dates after two toggles of `d`: the entries other than `d`
all come back, `d` comes back once when it was there. -/
theorem toggled_twice_length (L : List String) (d : String) :
    let T := fun M : List String =>
      if M.contains d then M.filter (fun x => x != d) else M ++ [d]
    (T (T L)).length ≤ L.length ∧ (L.count d ≤ 1 → (T (T L)).length = L.length) := by
  intro T
  have hfl := filter_ne_length L d
  by_cases hc : d ∈ L
  · have h1 : T L = L.filter (fun x => x != d) := by
      show (if L.contains d then L.filter (fun x => x != d) else L ++ [d]) = _
      rw [if_pos (by simpa using hc)]
    have hnot : d ∉ L.filter (fun x => x != d) := by simp
    have h2 : T (T L) = L.filter (fun x => x != d) ++ [d] := by
      rw [h1]
      show (if (L.filter (fun x => x != d)).contains d then _ else _) = _
      rw [if_neg (by simp)]
    have hpos : 0 < L.count d := List.count_pos_iff.mpr hc
    rw [h2, List.length_append, List.length_singleton]
    constructor <;> intros <;> omega
  · have h1 : T L = L ++ [d] := by
      show (if L.contains d then L.filter (fun x => x != d) else L ++ [d]) = _
      rw [if_neg (by simpa using hc)]
    have hself : L.filter (fun x => x != d) = L := by
      rw [List.filter_eq_self]
      intro a ha
      have : a ≠ d := fun h => hc (h ▸ ha)
      simpa using this
    have h2 : T (T L) = L := by
      rw [h1]
      show (if (L ++ [d]).contains d then (L ++ [d]).filter (fun x => x != d) else _) = _
      rw [if_pos (by simp), List.filter_append, hself]
      simp
    rw [h2]
    exact ⟨Nat.le_refl _, fun _ => rfl⟩

theorem toggleOne_twice_length (d : String) (id : Int) (h : Habit) :
    (toggleOne d id (toggleOne d id h)).dates.length ≤ h.dates.length ∧
      (h.dates.count d ≤ 1 →
        (toggleOne d id (toggleOne d id h)).dates.length = h.dates.length) := by
  by_cases hid : h.id = id
  · have hid2 : (toggleOne d id h).id = id := by rw [(toggleOne_fields d id h).1]; exact hid
    rw [toggleOne_dates d id _ hid2, toggleOne_dates d id h hid]
    exact toggled_twice_length h.dates d
  · rw [toggleOne_of_ne d id h hid, toggleOne_of_ne d id h hid]
    exact ⟨Nat.le_refl _, fun _ => rfl⟩

/-! ## Trimming, adding, reachable states -/

theorem trim_eq_empty_of_blank (name : String)
    (h : ∀ c ∈ name.data, isTrimChar c = true) : trim name = "" := by
  unfold trim
  have h1 : name.data.dropWhile isTrimChar = [] := List.dropWhile_eq_nil_iff.mpr h
  rw [h1]
  rfl

theorem blank_of_trim_eq_empty (name : String) (h : trim name = "") :
    ∀ c ∈ name.data, isTrimChar c = true := by
  unfold trim at h
  have h0 := congrArg String.data h
  simp only [List.reverse_eq_iff] at h0
  have h1 : List.dropWhile isTrimChar (List.dropWhile isTrimChar name.data).reverse = [] := h0
  rw [List.dropWhile_eq_nil_iff] at h1
  have h2 : List.dropWhile isTrimChar name.data = [] := by
    cases hd : List.dropWhile isTrimChar name.data with
    | nil => rfl
    | cons a t =>
      have ha : isTrimChar a = true := h1 a (by rw [hd]; simp)
      have hna := List.head_dropWhile_not isTrimChar name.data (by rw [hd]; simp)
      simp only [hd, List.head_cons] at hna
      rw [ha] at hna
      exact absurd hna (by decide)
  exact List.dropWhile_eq_nil_iff.mp h2

theorem name_ne_empty_of_trim (name : String) (h : trim name ≠ "") : name ≠ "" := by
  rintro rfl
  exact h rfl

theorem addHabit_of_trim_ne (idClock dateClock : Int) (s : State)
    (h : trim s.newHabit.name ≠ "") :
    (addHabit idClock dateClock s).habits =
      s.habits ++
        [{ id := idClock
           name := s.newHabit.name
           reminderTime := some s.newHabit.reminderTime
           completedDates := some []
           createdAt := toISODate dateClock }] := by
  unfold addHabit
  rw [if_neg h]

/-- What holds of every habit of a reachable state: a name that is not empty
and dates without a repetition. -/
theorem reachable_habits (s : State) (hs : Reachable s) :
    ∀ h ∈ s.habits, h.name ≠ "" ∧ h.dates.Nodup := by
  induction hs with
  | init today =>
    intro h hh
    simp [initialState] at hh
  | edit s draft showForm _ ih => exact ih
  | newDay s today _ ih => exact ih
  | add s idClock dateClock _ ih =>
    intro h hh
    by_cases ht : trim s.newHabit.name = ""
    · have e : addHabit idClock dateClock s = s := by
        unfold addHabit
        rw [if_pos ht]
      rw [e] at hh
      exact ih h hh
    · rw [addHabit_of_trim_ne idClock dateClock s ht] at hh
      rcases List.mem_append.mp hh with h1 | h1
      · exact ih h h1
      · have e := List.mem_singleton.mp h1
        subst e
        exact ⟨name_ne_empty_of_trim _ ht, List.nodup_nil⟩
  | toggle s id _ ih =>
    intro h hh
    simp only [toggleHabit, List.mem_map] at hh
    obtain ⟨g, hg, rfl⟩ := hh
    have := ih g hg
    refine ⟨?_, toggleOne_nodup _ _ _ this.2⟩
    rw [(toggleOne_fields _ _ _).2.1]
    exact this.1
  | delete s id _ ih =>
    intro h hh
    simp only [deleteHabit, List.mem_filter] at hh
    exact ih h hh.1

theorem toggleHabit_of_absent (id : Int) (s : State) (h : ∀ g ∈ s.habits, g.id ≠ id) :
    toggleHabit id s = s := by
  unfold toggleHabit
  have : s.habits.map (toggleOne s.today id) = s.habits := by
    conv_rhs => rw [← List.map_id s.habits]
    apply List.map_congr_left
    intro g hg
    exact toggleOne_of_ne _ _ _ (h g hg)
  rw [this]

theorem deleteHabit_ids (id : Int) (s : State) : ∀ g ∈ (deleteHabit id s).habits, g.id ≠ id := by
  intro g hg
  simp only [deleteHabit, List.mem_filter] at hg
  simpa using hg.2

/-! ## The reminder tick -/

theorem remindOne_foldl (permission : Option Permission) (time today : String)
    (habits : List Habit) (fired : List Notification) :
    habits.foldl (remindOne permission time today) fired =
      fired ++ (habits.filter (fun hb => decide (permission = some Permission.granted ∧
        hb.reminderTime = some time ∧ today ∉ hb.dates))).map reminderFor := by
  induction habits generalizing fired with
  | nil => simp
  | cons hb rest ih =>
    rw [List.foldl_cons, ih]
    have hinc : (match hb.completedDates with
        | none => false
        | some completedDates => completedDates.contains today) = decide (today ∈ hb.dates) := by
      unfold Habit.dates
      cases hb.completedDates <;> simp
    rw [List.filter_cons]
    unfold remindOne
    simp only [hinc, decide_eq_false_iff_not, decide_eq_true_eq]
    by_cases h2 : permission = some Permission.granted <;>
      by_cases h3 : hb.reminderTime = some time <;>
      by_cases h4 : today ∈ hb.dates <;>
      simp [h2, h3, h4]

theorem currentTime_ne_empty (hours minutes : Nat) : currentTime hours minutes ≠ "" := by
  intro h
  have := congrArg String.length h
  simp only [currentTime, String.length_append] at this
  have h1 : ":".length = 1 := rfl
  rw [h1] at this
  have h0 : "".length = 0 := rfl
  omega

/-! ## The platform functions on sample values -/

theorem toISODate_sample : toISODate 1704265500000 = "2024-01-03" := by
  simp [toISODate, msPerDay, isoDate, civilFromDays, yearChars, padNat]
  decide

theorem currentTime_sample : currentTime 7 5 = "07:05" := by
  decide

theorem isoDate_samples :
    isoDate 0 = "1970-01-01" ∧ isoDate (-1) = "1969-12-31" ∧ isoDate 19782 = "2024-02-29" ∧
      isoDate 19783 = "2024-03-01" ∧ isoDate 2932897 = "+010000-01-01" ∧
      isoDate (-719529) = "-000001-12-31" := by
  refine ⟨?_, ?_, ?_, ?_, ?_, ?_⟩ <;>
    simp [isoDate, civilFromDays, yearChars, padNat] <;> decide

theorem isoDate_sample_days :
    isoDate (1704265500000 / msPerDay) = "2024-01-03" ∧
    isoDate (1704265500000 / msPerDay - 1) = "2024-01-02" ∧
    isoDate (1704265500000 / msPerDay - 2) = "2024-01-01" := by
  refine ⟨?_, ?_, ?_⟩ <;>
    simp [msPerDay, isoDate, civilFromDays, yearChars, padNat] <;> decide

/-- The strings the loop tests in New York at 2024-03-10T23:30Z, the evening
after the clocks went forward: the current UTC date comes twice. -/
theorem checkDateStr_new_york_march :
    checkDateStr newYork2024 1710113400000 0 = "2024-03-10" ∧
    checkDateStr newYork2024 1710113400000 1 = "2024-03-10" ∧
    checkDateStr newYork2024 1710113400000 2 = "2024-03-09" := by
  refine ⟨?_, ?_, ?_⟩ <;>
    rw [checkDateStr, setDate_getDate] <;>
    simp [utcOfLocal, localTime, newYork2024, toISODate, msPerDay, isoDate, civilFromDays,
      yearChars, padNat] <;> decide

/-- The strings the loop tests in New York at 2024-11-04T00:30Z, the evening
after the clocks went back: the UTC date of the day before is skipped. -/
theorem checkDateStr_new_york_november :
    checkDateStr newYork2024 1730680200000 0 = "2024-11-04" ∧
    checkDateStr newYork2024 1730680200000 1 = "2024-11-02" ∧
    checkDateStr newYork2024 1730680200000 2 = "2024-11-01" := by
  refine ⟨?_, ?_, ?_⟩ <;>
    rw [checkDateStr, setDate_getDate] <;>
    simp [utcOfLocal, localTime, newYork2024, toISODate, msPerDay, isoDate, civilFromDays,
      yearChars, padNat] <;> decide

theorem isoDate_march_days :
    isoDate (1710113400000 / msPerDay) = "2024-03-10" ∧
    isoDate (1710113400000 / msPerDay - 1) = "2024-03-09" := by
  refine ⟨?_, ?_⟩ <;>
    simp [msPerDay, isoDate, civilFromDays, yearChars, padNat] <;> decide

theorem isoDate_november_days :
    isoDate (1730680200000 / msPerDay) = "2024-11-04" ∧
    isoDate (1730680200000 / msPerDay - 1) = "2024-11-03" ∧
    isoDate (1730680200000 / msPerDay - 2) = "2024-11-02" := by
  refine ⟨?_, ?_, ?_⟩ <;>
    simp [msPerDay, isoDate, civilFromDays, yearChars, padNat] <;> decide

/-- New York keeps its offset over the days before 2024-01-03T07:05Z. -/
theorem newYork2024_steady_january : newYork2024.steadyFor 1704265500000 3 := by
  intro i hi
  interval_cases i <;> decide

theorem trim_samples : trim "  Morning run \n" = "Morning run" ∧ trim " \t " = "" := by
  decide

/-! ## Claims -/

/-- C1, as stated, fails in a zone with daylight saving, where the loop steps
the local day and tests the UTC date. In New York at 2024-03-10T23:30Z with
`{2024-03-10, 2024-03-08}` the consecutive days up to `asOf = 2024-03-10` are
1 (the day before is missing) and `calculateStreak` returns 2; at
2024-11-04T00:30Z with `{2024-11-04, 2024-11-03}` they are 2 and it
returns 1. -/
theorem calculateStreak_miscounts_across_clock_change :
    (isoDate (1710113400000 / msPerDay) ∈ (habitWith ["2024-03-10", "2024-03-08"]).dates ∧
      isoDate (1710113400000 / msPerDay - 1) ∉ (habitWith ["2024-03-10", "2024-03-08"]).dates ∧
      calculateStreak newYork2024 1710113400000 (habitWith ["2024-03-10", "2024-03-08"]) = 2) ∧
    (isoDate (1730680200000 / msPerDay) ∈ (habitWith ["2024-11-04", "2024-11-03"]).dates ∧
      isoDate (1730680200000 / msPerDay - 1) ∈ (habitWith ["2024-11-04", "2024-11-03"]).dates ∧
      isoDate (1730680200000 / msPerDay - 2) ∉ (habitWith ["2024-11-04", "2024-11-03"]).dates ∧
      calculateStreak newYork2024 1730680200000 (habitWith ["2024-11-04", "2024-11-03"]) = 1) := by
  obtain ⟨m0, m1⟩ := isoDate_march_days
  obtain ⟨n0, n1, n2⟩ := isoDate_november_days
  obtain ⟨c0, c1, _⟩ := checkDateStr_new_york_march
  obtain ⟨e0, e1, _⟩ := checkDateStr_new_york_november
  refine ⟨⟨?_, ?_, ?_⟩, ?_, ?_, ?_, ?_⟩
  · rw [m0]; decide
  · rw [m1]; decide
  · rw [calculateStreak_eq_loop, if_neg (by decide),
      streakLoop_present _ _ _ 0 0 (by decide) (by rw [c0]; decide),
      streakLoop_present _ _ _ 1 1 (by decide) (by rw [c1]; decide),
      streakLoop_done _ _ _ 2 2 (by decide)]
  · rw [n0]; decide
  · rw [n1]; decide
  · rw [n2]; decide
  · rw [calculateStreak_eq_loop, if_neg (by decide),
      streakLoop_present _ _ _ 0 0 (by decide) (by rw [e0]; decide),
      streakLoop_absent _ _ _ 1 1 (by decide) (by rw [e1]; decide)]

/-- C1, amended: when the zone keeps, for each round of the loop (one for each
entry of `completedDates`), the UTC offset in force at the clock reading (as
every zone without clock changes does), `calculateStreak` returns exactly the
number `n` such that the days `asOf, asOf-1, ..., asOf-(n-1)` are all in
`completedDates` and `asOf-n` is not (so the bound `i < length` never cuts the
count short); it returns 0 when `asOf` itself is not completed, also for an
empty or missing array; and `{asOf, asOf-1, asOf-2}` gives 3, `{asOf-1}` gives
0, `{asOf, asOf-2}` gives 1. Here `asOf` is the UTC day
`currentDate / msPerDay` of the clock reading. -/
theorem calculateStreak_counts_trailing_days (zone : Zone) (currentDate : Int) (habit : Habit)
    (hzone : zone.steadyFor currentDate habit.dates.length) :
    (∀ n : Nat, calculateStreak zone currentDate habit = n ↔
      (∀ i : Nat, i < n → isoDate (currentDate / msPerDay - (i : Int)) ∈ habit.dates) ∧
        isoDate (currentDate / msPerDay - (n : Int)) ∉ habit.dates) ∧
    (toISODate currentDate ∉ habit.dates → calculateStreak zone currentDate habit = 0) ∧
    (habit.completedDates = none → calculateStreak zone currentDate habit = 0) ∧
    (habit.completedDates = some [] → calculateStreak zone currentDate habit = 0) ∧
    ((∀ x, x ∈ habit.dates ↔ x = isoDate (currentDate / msPerDay) ∨
        x = isoDate (currentDate / msPerDay - 1) ∨ x = isoDate (currentDate / msPerDay - 2)) →
      calculateStreak zone currentDate habit = 3) ∧
    ((∀ x, x ∈ habit.dates ↔ x = isoDate (currentDate / msPerDay - 1)) →
      calculateStreak zone currentDate habit = 0) ∧
    ((∀ x, x ∈ habit.dates ↔ x = isoDate (currentDate / msPerDay) ∨
        x = isoDate (currentDate / msPerDay - 2)) →
      calculateStreak zone currentDate habit = 1) := by
  have hne : ∀ a b : Int, a ≠ b → isoDate a ≠ isoDate b :=
    fun a b hab h => hab (isoDate_injective h)
  have hiff := calculateStreak_iff zone currentDate habit hzone
  refine ⟨hiff, ?_, ?_, ?_, ?_, ?_, ?_⟩
  · intro h
    rw [hiff]
    refine ⟨fun i hi => absurd hi (Nat.not_lt_zero i), ?_⟩
    simpa [toISODate] using h
  · intro h
    simp [calculateStreak, h]
  · intro h
    simp [calculateStreak, h]
  · intro h
    rw [hiff]
    constructor
    · intro i hi
      rw [h]
      have : i = 0 ∨ i = 1 ∨ i = 2 := by omega
      rcases this with rfl | rfl | rfl
      · left; simp
      · right; left; simp
      · right; right; simp
    · rw [h]
      have h0 := hne (currentDate / msPerDay - 3) (currentDate / msPerDay) (by omega)
      have h1 := hne (currentDate / msPerDay - 3) (currentDate / msPerDay - 1) (by omega)
      have h2 := hne (currentDate / msPerDay - 3) (currentDate / msPerDay - 2) (by omega)
      push_cast
      rintro (a | a | a)
      exacts [h0 a, h1 a, h2 a]
  · intro h
    rw [hiff]
    refine ⟨fun i hi => absurd hi (Nat.not_lt_zero i), ?_⟩
    rw [h]
    have h0 := hne (currentDate / msPerDay - ((0 : Nat) : Int)) (currentDate / msPerDay - 1)
      (by omega)
    exact h0
  · intro h
    rw [hiff]
    constructor
    · intro i hi
      rw [h]
      have : i = 0 := by omega
      subst this
      left; simp
    · rw [h]
      have h0 := hne (currentDate / msPerDay - 1) (currentDate / msPerDay) (by omega)
      have h2 := hne (currentDate / msPerDay - 1) (currentDate / msPerDay - 2) (by omega)
      push_cast
      rintro (a | a)
      exacts [h0 a, h2 a]

/-- C1, amended, at concrete inputs, in New York with the clock at
2024-01-03T07:05Z, far from a clock change: the three days up to 2024-01-03
give 3, the day before alone gives 0, a gap on 2024-01-02 gives 1. -/
theorem calculateStreak_counts_trailing_days_witness :
    newYork2024.steadyFor 1704265500000 3 ∧
    calculateStreak newYork2024 1704265500000
      (habitWith ["2024-01-01", "2024-01-02", "2024-01-03"]) = 3 ∧
    calculateStreak newYork2024 1704265500000 (habitWith ["2024-01-02"]) = 0 ∧
    calculateStreak newYork2024 1704265500000 (habitWith ["2024-01-03", "2024-01-01"]) = 1 := by
  obtain ⟨e0, e1, e2⟩ := isoDate_sample_days
  have hz := newYork2024_steady_january
  refine ⟨hz, ?_, ?_, ?_⟩
  · apply (calculateStreak_counts_trailing_days newYork2024 1704265500000
      (habitWith ["2024-01-01", "2024-01-02", "2024-01-03"]) hz).2.2.2.2.1
    intro x
    rw [e0, e1, e2]
    simp [Habit.dates, habitWith]
    tauto
  · apply (calculateStreak_counts_trailing_days newYork2024 1704265500000
      (habitWith ["2024-01-02"]) (steadyFor_mono _ _ 1 3 (by decide) hz)).2.2.2.2.2.1
    intro x
    rw [e1]
    simp [Habit.dates, habitWith]
  · apply (calculateStreak_counts_trailing_days newYork2024 1704265500000
      (habitWith ["2024-01-03", "2024-01-01"])
      (steadyFor_mono _ _ 2 3 (by decide) hz)).2.2.2.2.2.2
    intro x
    rw [e0, e2]
    simp [Habit.dates, habitWith]

/-- C2: `toggleHabit(id)` with `today = d` flips the membership of `d` in the
`completedDates` of every habit with that id, keeps the membership of every
other date there, keeps the other fields of that habit, keeps every other
habit as it is, and keeps the length and the order of the collection (and the
rest of the state). -/
theorem toggleHabit_flips_today (id : Int) (s : State) :
    (toggleHabit id s).habits.length = s.habits.length ∧
    (toggleHabit id s).today = s.today ∧
    (toggleHabit id s).newHabit = s.newHabit ∧
    (toggleHabit id s).showAddForm = s.showAddForm ∧
    ∀ (i : Nat) (h : Habit), s.habits[i]? = some h →
      ∃ h2, (toggleHabit id s).habits[i]? = some h2 ∧
        h2.id = h.id ∧ h2.name = h.name ∧ h2.reminderTime = h.reminderTime ∧
        h2.createdAt = h.createdAt ∧
        (h.id ≠ id → h2 = h) ∧
        (h.id = id →
          isCompletedToday s.today h2 = !isCompletedToday s.today h ∧
          (s.today ∈ h2.dates ↔ s.today ∉ h.dates) ∧
          ∀ e, e ≠ s.today → (e ∈ h2.dates ↔ e ∈ h.dates)) := by
  refine ⟨by simp [toggleHabit], rfl, rfl, rfl, ?_⟩
  intro i h hi
  refine ⟨toggleOne s.today id h, by simp [toggleHabit, hi], (toggleOne_fields _ _ _).1,
    (toggleOne_fields _ _ _).2.1, (toggleOne_fields _ _ _).2.2.1, (toggleOne_fields _ _ _).2.2.2,
    toggleOne_of_ne _ _ _, ?_⟩
  intro hid
  have hflip : s.today ∈ (toggleOne s.today id h).dates ↔ s.today ∉ h.dates := by
    rw [toggleOne_mem _ _ _ hid]
    simp
  refine ⟨?_, hflip, ?_⟩
  · rw [isCompletedToday_eq, isCompletedToday_eq]
    by_cases hm : s.today ∈ h.dates
    · simp [hm, hflip]
    · simp [hm, hflip]
  · intro e he
    rw [toggleOne_mem _ _ _ hid]
    simp [he]

/-- C3, as stated, fails for `calculateStreak`: in New York at
2024-03-10T23:30Z a habit that has `2024-03-10` stored twice has streak 2, two
toggles on `today = 2024-03-10` leave it with the one entry `2024-03-10`, and
its streak is then 1. -/
theorem toggleHabit_twice_changes_streak :
    calculateStreak newYork2024 1710113400000 (habitWith ["2024-03-10", "2024-03-10"]) = 2 ∧
    (toggleHabit 1704096000000 (toggleHabit 1704096000000 doubledState)).habits =
      [habitWith ["2024-03-10"]] ∧
    calculateStreak newYork2024 1710113400000 (habitWith ["2024-03-10"]) = 1 := by
  obtain ⟨c0, c1, _⟩ := checkDateStr_new_york_march
  refine ⟨?_, by decide, ?_⟩
  · rw [calculateStreak_eq_loop, if_neg (by decide),
      streakLoop_present _ _ _ 0 0 (by decide) (by rw [c0]; decide),
      streakLoop_present _ _ _ 1 1 (by decide) (by rw [c1]; decide),
      streakLoop_done _ _ _ 2 2 (by decide)]
  · rw [calculateStreak_eq_loop, if_neg (by decide),
      streakLoop_present _ _ _ 0 0 (by decide) (by rw [c0]; decide),
      streakLoop_done _ _ _ 1 1 (by decide)]

/-- C3, amended: two `toggleHabit(id)` calls in a row with the same `today`
give back, for every habit, the membership of every date in `completedDates`
(and the other fields), so `isCompletedToday` returns what it returned before;
`calculateStreak` returns what it returned before for a habit whose
`completedDates` holds `today` at most once (as when it has no duplicates), in
any zone, and for every habit when the zone keeps its offset over the rounds
of the streak loop. -/
theorem toggleHabit_twice_restores (id : Int) (s : State) :
    (toggleHabit id (toggleHabit id s)).habits.length = s.habits.length ∧
    ∀ (i : Nat) (h : Habit), s.habits[i]? = some h →
      ∃ h2, (toggleHabit id (toggleHabit id s)).habits[i]? = some h2 ∧
        h2.id = h.id ∧ h2.name = h.name ∧ h2.reminderTime = h.reminderTime ∧
        h2.createdAt = h.createdAt ∧
        (∀ e, e ∈ h2.dates ↔ e ∈ h.dates) ∧
        (∀ d, isCompletedToday d h2 = isCompletedToday d h) ∧
        (∀ (zone : Zone) (t : Int),
          h.dates.count s.today ≤ 1 ∨ zone.steadyFor t h.dates.length →
            calculateStreak zone t h2 = calculateStreak zone t h) := by
  refine ⟨by simp [toggleHabit], ?_⟩
  intro i h hi
  have hf1 := toggleOne_fields s.today id h
  have hf2 := toggleOne_fields s.today id (toggleOne s.today id h)
  have hlen := toggleOne_twice_length s.today id h
  refine ⟨toggleOne s.today id (toggleOne s.today id h), by simp [toggleHabit, hi],
    hf2.1.trans hf1.1, hf2.2.1.trans hf1.2.1, hf2.2.2.1.trans hf1.2.2.1,
    hf2.2.2.2.trans hf1.2.2.2, toggleOne_twice_mem _ _ _, ?_, ?_⟩
  · intro d
    rw [isCompletedToday_eq, isCompletedToday_eq]
    simp only [toggleOne_twice_mem]
  · rintro zone t (hcount | hz)
    · exact calculateStreak_congr zone t _ _ (toggleOne_twice_mem _ _ _) (hlen.2 hcount)
    · exact calculateStreak_congr_steady zone t _ _ (toggleOne_twice_mem _ _ _)
        (steadyFor_mono _ _ _ _ hlen.1 hz) hz

/-- C3, amended, at a concrete input: in New York at 2024-03-10T23:30Z a habit
with `2024-03-10` and `2024-03-08` stored once each has the same streak after
two toggles on `today = 2024-03-10`. -/
theorem toggleHabit_twice_restores_witness :
    (habitWith ["2024-03-10", "2024-03-08"]).dates.count "2024-03-10" ≤ 1 ∧
    (toggleHabit 1704096000000 (toggleHabit 1704096000000
      { doubledState with habits := [habitWith ["2024-03-10", "2024-03-08"]] })).habits =
      [habitWith ["2024-03-08", "2024-03-10"]] ∧
    calculateStreak newYork2024 1710113400000 (habitWith ["2024-03-08", "2024-03-10"]) =
      calculateStreak newYork2024 1710113400000 (habitWith ["2024-03-10", "2024-03-08"]) := by
  have hget : (toggleHabit 1704096000000 (toggleHabit 1704096000000
      { doubledState with habits := [habitWith ["2024-03-10", "2024-03-08"]] })).habits =
      [habitWith ["2024-03-08", "2024-03-10"]] := by decide
  refine ⟨by decide, hget, ?_⟩
  obtain ⟨h2, hh2, _, _, _, _, _, _, hstreak⟩ :=
    (toggleHabit_twice_restores 1704096000000
      { doubledState with habits := [habitWith ["2024-03-10", "2024-03-08"]] }).2 0
      (habitWith ["2024-03-10", "2024-03-08"]) rfl
  rw [hget] at hh2
  have e : habitWith ["2024-03-08", "2024-03-10"] = h2 := Option.some.inj hh2
  rw [e]
  exact hstreak newYork2024 1710113400000 (Or.inl (by decide))

/-- C4, as stated, fails: with one habit whose id is `1704096000000` (ids
pairwise distinct) and the draft name `Read`, an `addHabit` whose `Date.now()`
reads `1704096000000` again appends a habit with that same id, so the ids are
no longer unique. -/
theorem addHabit_same_clock_reading_clashes :
    (clashState.habits.map Habit.id).Nodup ∧ trim clashState.newHabit.name ≠ "" ∧
      ¬ ((addHabit 1704096000000 1704096000000 clashState).habits.map Habit.id).Nodup := by
  refine ⟨by decide, by decide, ?_⟩
  rw [addHabit_of_trim_ne _ _ _ (by decide)]
  decide

/-- C4, amended: for a draft name whose trimmed form is not empty, `addHabit`
yields the old collection followed by exactly one new habit (the size grows by
one, the existing habits and their order stay), the new habit has empty
`completedDates` and the reading of `Date.now()` as its id; when no habit of
the collection already has that reading as its id, the new id differs from
every id in the collection, and ids that were pairwise distinct stay so. -/
theorem addHabit_appends_one (idClock dateClock : Int) (s : State)
    (hname : trim s.newHabit.name ≠ "") :
    ∃ habit : Habit,
      (addHabit idClock dateClock s).habits = s.habits ++ [habit] ∧
      (addHabit idClock dateClock s).habits.length = s.habits.length + 1 ∧
      habit.completedDates = some [] ∧ habit.id = idClock ∧ habit.name = s.newHabit.name ∧
      habit.reminderTime = some s.newHabit.reminderTime ∧ habit.createdAt = toISODate dateClock ∧
      ((∀ g ∈ s.habits, g.id ≠ idClock) →
        (∀ g ∈ s.habits, g.id ≠ habit.id) ∧
        ((s.habits.map Habit.id).Nodup →
          ((addHabit idClock dateClock s).habits.map Habit.id).Nodup)) := by
  refine ⟨_, addHabit_of_trim_ne idClock dateClock s hname, ?_, rfl, rfl, rfl, rfl, rfl, ?_⟩
  · rw [addHabit_of_trim_ne idClock dateClock s hname]
    simp
  · intro hfresh
    refine ⟨hfresh, ?_⟩
    intro hids
    rw [addHabit_of_trim_ne idClock dateClock s hname, List.map_append]
    refine List.Nodup.append hids (by simp) ?_
    intro x hx hy
    obtain ⟨g, hg, rfl⟩ := List.mem_map.mp hx
    simp only [List.map_cons, List.map_nil, List.mem_singleton] at hy
    exact hfresh g hg hy

/-- C4, amended, at a concrete input: the draft `Read` added to `clashState` at
a later clock reading. -/
theorem addHabit_appends_one_witness :
    trim clashState.newHabit.name ≠ "" ∧
    ∃ habit : Habit,
      (addHabit 1704096000001 1704096000001 clashState).habits = clashState.habits ++ [habit] ∧
      (addHabit 1704096000001 1704096000001 clashState).habits.length =
        clashState.habits.length + 1 ∧
      habit.completedDates = some [] ∧ habit.id = 1704096000001 ∧
      habit.name = clashState.newHabit.name ∧
      habit.reminderTime = some clashState.newHabit.reminderTime ∧
      habit.createdAt = toISODate 1704096000001 ∧
      ((∀ g ∈ clashState.habits, g.id ≠ 1704096000001) →
        (∀ g ∈ clashState.habits, g.id ≠ habit.id) ∧
        ((clashState.habits.map Habit.id).Nodup →
          ((addHabit 1704096000001 1704096000001 clashState).habits.map Habit.id).Nodup)) :=
  ⟨by decide, addHabit_appends_one 1704096000001 1704096000001 clashState (by decide)⟩

/-- C5: `addHabit` with a draft name that is empty or made of whitespace only
(the characters `trim` removes) leaves the state, and so the collection,
unchanged; and no habit of a state reachable from the empty collection has an
empty name. -/
theorem addHabit_rejects_blank_name :
    (∀ (idClock dateClock : Int) (s : State),
      (∀ c ∈ s.newHabit.name.data, isTrimChar c = true) → addHabit idClock dateClock s = s) ∧
    (∀ (idClock dateClock : Int) (s : State),
      addHabit idClock dateClock s = s ∨ s.newHabit.name ≠ "") ∧
    (∀ s : State, Reachable s → ∀ h ∈ s.habits, h.name ≠ "") := by
  refine ⟨?_, ?_, ?_⟩
  · intro idClock dateClock s h
    unfold addHabit
    rw [if_pos (trim_eq_empty_of_blank _ h)]
  · intro idClock dateClock s
    by_cases ht : trim s.newHabit.name = ""
    · left
      unfold addHabit
      rw [if_pos ht]
    · right
      exact name_ne_empty_of_trim _ ht
  · intro s hs h hh
    exact (reachable_habits s hs h hh).1

/-- C5 at concrete inputs: a draft of two blanks is rejected, and the habit
added from the draft `Run` has a name that is not empty. -/
theorem addHabit_rejects_blank_name_witness :
    addHabit 1704096000000 1704096000000
        { initialState "2024-01-01" with
          newHabit := { name := "  ", reminderTime := "07:00" }, showAddForm := true } =
      { initialState "2024-01-01" with
        newHabit := { name := "  ", reminderTime := "07:00" }, showAddForm := true } ∧
    ∀ h ∈ (addHabit 1704096000000 1704096000000
        { initialState "2024-01-01" with
          newHabit := { name := "Run", reminderTime := "07:00" }, showAddForm := true }).habits,
      h.name ≠ "" :=
  ⟨addHabit_rejects_blank_name.1 1704096000000 1704096000000 _ (by decide),
    addHabit_rejects_blank_name.2.2 _
      (Reachable.add _ 1704096000000 1704096000000
        (Reachable.edit _ { name := "Run", reminderTime := "07:00" } true
          (Reachable.init "2024-01-01")))⟩

/-- C6: `deleteHabit(id)` returns exactly the habits whose id differs from
`id`, unmodified and in their original order; no habit with that id remains;
and when no habit has that id the state is returned unchanged. -/
theorem deleteHabit_removes_exactly (id : Int) (s : State) :
    (deleteHabit id s).habits = s.habits.filter (fun h => decide (h.id ≠ id)) ∧
    List.Sublist (deleteHabit id s).habits s.habits ∧
    (∀ h, h ∈ (deleteHabit id s).habits ↔ h ∈ s.habits ∧ h.id ≠ id) ∧
    (∀ h ∈ (deleteHabit id s).habits, h.id ≠ id) ∧
    ((∀ h ∈ s.habits, h.id ≠ id) → deleteHabit id s = s) ∧
    (deleteHabit id s).today = s.today ∧ (deleteHabit id s).newHabit = s.newHabit ∧
    (deleteHabit id s).showAddForm = s.showAddForm := by
  refine ⟨?_, List.filter_sublist _, ?_, deleteHabit_ids id s, ?_, rfl, rfl, rfl⟩
  · unfold deleteHabit
    simp only
    congr 1
    funext h
    by_cases hid : h.id = id <;> simp [hid]
  · intro h
    simp [deleteHabit]
  · intro h
    unfold deleteHabit
    have : s.habits.filter (fun h => h.id != id) = s.habits := by
      rw [List.filter_eq_self]
      intro g hg
      simpa using h g hg
    rw [this]

/-- C6 at a concrete input: deleting an id that no habit has returns the
state unchanged. -/
theorem deleteHabit_removes_exactly_witness :
    (∀ h ∈ clashState.habits, h.id ≠ 7) ∧ deleteHabit 7 clashState = clashState :=
  ⟨by decide, (deleteHabit_removes_exactly 7 clashState).2.2.2.2.1 (by decide)⟩

/-- C7: `toggleHabit(id)` on a collection with no habit of that id returns the
state unchanged; so `deleteHabit(id)` followed by `toggleHabit(id)`, whatever
`today` is, gives what `deleteHabit(id)` alone gives. -/
theorem toggleHabit_unknown_id_noop (id : Int) (s : State) :
    ((∀ h ∈ s.habits, h.id ≠ id) → toggleHabit id s = s) ∧
    toggleHabit id (deleteHabit id s) = deleteHabit id s ∧
    (∀ d : String, (toggleHabit id { deleteHabit id s with today := d }).habits =
      (deleteHabit id s).habits) := by
  refine ⟨toggleHabit_of_absent id s, toggleHabit_of_absent id _ (deleteHabit_ids id s), ?_⟩
  intro d
  have h := toggleHabit_of_absent id { deleteHabit id s with today := d } (deleteHabit_ids id s)
  rw [h]

/-- C7 at a concrete input: toggling an id that no habit has returns the
state unchanged. -/
theorem toggleHabit_unknown_id_noop_witness :
    (∀ h ∈ clashState.habits, h.id ≠ 7) ∧ toggleHabit 7 clashState = clashState :=
  ⟨by decide, (toggleHabit_unknown_id_noop 7 clashState).1 (by decide)⟩

/-- C8, as stated, fails: with the stored text `oops`, which does not parse,
the load at start-up and a reminder tick both end in the `SyntaxError` instead
of going on with no habits. -/
theorem malformed_storage_raises :
    sampleParse "oops" = .error JsError.syntaxError ∧
    loadEffect sampleParse (some "oops") (initialState "2024-01-03") =
      .error JsError.syntaxError ∧
    loadEffect sampleParse (some "oops") (initialState "2024-01-03") ≠
      .ok { state := initialState "2024-01-03", remindersStarted := true } ∧
    reminderTick sampleParse (some "oops") (some Permission.granted) 1704265500000 7 5 =
      .error JsError.syntaxError := by
  refine ⟨rfl, rfl, ?_, rfl⟩
  intro h
  have h2 : loadEffect sampleParse (some "oops") (initialState "2024-01-03") =
      .error JsError.syntaxError := rfl
  rw [h2] at h
  exact Except.noConfusion h

/-- C8, amended: for a stored text that is not empty and fails to parse, the
load at start-up and every reminder tick end in the error of the parser, which
is not caught (no collection is set, the timer is not installed by that load,
no notification is issued); an empty stored text, or no stored text, is
taken as no habits without an error. -/
theorem parse_failure_is_raised (parse : String → Except JsError (List Habit)) (text : String)
    (e : JsError) (s : State) (permission : Option Permission) (now : Int) (hours minutes : Nat)
    (hne : text ≠ "") (hfail : parse text = .error e) :
    loadEffect parse (some text) s = .error e ∧
    reminderTick parse (some text) permission now hours minutes = .error e ∧
    loadEffect parse (some "") s = .ok { state := s, remindersStarted := true } ∧
    loadEffect parse none s = .ok { state := s, remindersStarted := true } ∧
    reminderTick parse (some "") permission now hours minutes = .ok [] ∧
    reminderTick parse none permission now hours minutes = .ok [] := by
  refine ⟨?_, ?_, ?_, rfl, ?_, rfl⟩
  · simp only [loadEffect, if_neg hne, hfail]
  · simp only [reminderTick, if_neg hne, hfail]
  · simp [loadEffect]
  · simp [reminderTick]

/-- C8, amended, at a concrete input: the stored text `oops`. -/
theorem parse_failure_is_raised_witness :
    "oops" ≠ "" ∧ sampleParse "oops" = .error JsError.syntaxError ∧
    loadEffect sampleParse (some "oops") (initialState "2024-01-03") =
      .error JsError.syntaxError ∧
    reminderTick sampleParse (some "oops") (some Permission.granted) 1704265500000 7 5 =
      .error JsError.syntaxError ∧
    loadEffect sampleParse (some "") (initialState "2024-01-03") =
      .ok { state := initialState "2024-01-03", remindersStarted := true } ∧
    loadEffect sampleParse none (initialState "2024-01-03") =
      .ok { state := initialState "2024-01-03", remindersStarted := true } ∧
    reminderTick sampleParse (some "") (some Permission.granted) 1704265500000 7 5 = .ok [] ∧
    reminderTick sampleParse none (some Permission.granted) 1704265500000 7 5 = .ok [] :=
  ⟨by decide, rfl,
    parse_failure_is_raised sampleParse "oops" JsError.syntaxError (initialState "2024-01-03")
      (some Permission.granted) 1704265500000 7 5 (by decide) rfl⟩

/-- C9: one reminder tick over a stored habit list issues, in list order,
exactly one notification for each habit such that permission is granted, its
`reminderTime` equals the current `HH:MM` and its `completedDates` does not
include the current date, and none for any other habit; each has the title
`Habit Reminder` and a body that contains the name of the habit; a habit
without a `reminderTime`, or with the empty one, gets none. -/
theorem reminderTick_notifies_due_habits (parse : String → Except JsError (List Habit))
    (text : String) (habits : List Habit) (permission : Option Permission) (now : Int)
    (hours minutes : Nat) (hne : text ≠ "") (hparse : parse text = .ok habits) :
    reminderTick parse (some text) permission now hours minutes =
      .ok ((habits.filter (fun hb => decide (permission = some Permission.granted ∧
        hb.reminderTime = some (currentTime hours minutes) ∧
        toISODate now ∉ hb.dates))).map reminderFor) ∧
    (∀ hb : Habit, (reminderFor hb).title = "Habit Reminder" ∧
      (reminderFor hb).body = "Time to complete: " ++ hb.name ∧
      hb.name.data <:+: (reminderFor hb).body.data) ∧
    (∀ hb : Habit, hb.reminderTime = none ∨ hb.reminderTime = some "" →
      ¬ (permission = some Permission.granted ∧
        hb.reminderTime = some (currentTime hours minutes) ∧ toISODate now ∉ hb.dates)) := by
  refine ⟨?_, ?_, ?_⟩
  · simp only [reminderTick, if_neg hne, hparse]
    rw [remindOne_foldl]
    simp
  · intro hb
    refine ⟨rfl, rfl, ?_⟩
    exact ⟨"Time to complete: ".data, [], by simp [reminderFor]⟩
  · rintro hb (h | h) ⟨_, h2, _⟩
    · rw [h] at h2
      exact absurd h2 (by simp)
    · rw [h] at h2
      have := Option.some.inj h2
      exact currentTime_ne_empty hours minutes this.symm

/-- C9 at a concrete input: of four stored habits, at 07:05 on 2024-01-03 with
permission granted, the two that are due at 07:05 and not done that day are
notified, in list order. -/
theorem reminderTick_notifies_due_habits_witness :
    "stored" ≠ "" ∧
    (fun _ => Except.ok sampleHabits : String → Except JsError (List Habit)) "stored" =
      .ok sampleHabits ∧
    reminderTick (fun _ => Except.ok sampleHabits) (some "stored") (some Permission.granted)
        1704265500000 7 5 =
      .ok [{ title := "Habit Reminder", body := "Time to complete: Run", icon := "⭐",
             badge := "⭐" },
           { title := "Habit Reminder", body := "Time to complete: Nap", icon := "⭐",
             badge := "⭐" }] := by
  refine ⟨by decide, rfl, ?_⟩
  rw [(reminderTick_notifies_due_habits (fun _ => Except.ok sampleHabits) "stored" sampleHabits
    (some Permission.granted) 1704265500000 7 5 (by decide) rfl).1]
  rw [toISODate_sample, currentTime_sample]
  exact congrArg Except.ok (by decide)

/-- C10: in every state reachable from the empty collection by draft edits,
`addHabit`, `toggleHabit` (with any `today`) and `deleteHabit`, the
`completedDates` of each habit has no duplicate entry; `toggleHabit`,
`addHabit` and `deleteHabit` each keep the collection free of duplicate dates,
and `addHabit` creates its habit with empty `completedDates`. -/
theorem completedDates_stay_duplicate_free :
    (∀ s : State, Reachable s →
      ∀ h ∈ s.habits, ∀ cd, h.completedDates = some cd → cd.Nodup) ∧
    (∀ (d : String) (id : Int) (h : Habit), h.dates.Nodup → (toggleOne d id h).dates.Nodup) ∧
    (∀ (id : Int) (s : State), (∀ h ∈ s.habits, h.dates.Nodup) →
      ∀ h ∈ (toggleHabit id s).habits, h.dates.Nodup) ∧
    (∀ (idClock dateClock : Int) (s : State), (∀ h ∈ s.habits, h.dates.Nodup) →
      ∀ h ∈ (addHabit idClock dateClock s).habits, h.dates.Nodup) ∧
    (∀ (id : Int) (s : State), (∀ h ∈ s.habits, h.dates.Nodup) →
      ∀ h ∈ (deleteHabit id s).habits, h.dates.Nodup) := by
  refine ⟨?_, toggleOne_nodup, ?_, ?_, ?_⟩
  · intro s hs h hh cd hcd
    have := (reachable_habits s hs h hh).2
    simpa [Habit.dates, hcd] using this
  · intro id s hall h hh
    simp only [toggleHabit, List.mem_map] at hh
    obtain ⟨g, hg, rfl⟩ := hh
    exact toggleOne_nodup _ _ _ (hall g hg)
  · intro idClock dateClock s hall h hh
    by_cases ht : trim s.newHabit.name = ""
    · have e : addHabit idClock dateClock s = s := by
        unfold addHabit
        rw [if_pos ht]
      rw [e] at hh
      exact hall h hh
    · rw [addHabit_of_trim_ne idClock dateClock s ht] at hh
      rcases List.mem_append.mp hh with h1 | h1
      · exact hall h h1
      · have e := List.mem_singleton.mp h1
        subst e
        exact List.nodup_nil
  · intro id s hall h hh
    simp only [deleteHabit, List.mem_filter] at hh
    exact hall h hh.1

/-- C10 at a concrete input: the state after adding `Run` and toggling it
twice on 2024-01-01 is reachable, and none of its habits has a repeated
date. -/
theorem completedDates_stay_duplicate_free_witness :
    Reachable (toggleHabit 1704096000000 (toggleHabit 1704096000000
        (addHabit 1704096000000 1704096000000
          { initialState "2024-01-01" with
            newHabit := { name := "Run", reminderTime := "07:00" },
            showAddForm := true }))) ∧
    ∀ h ∈ (toggleHabit 1704096000000 (toggleHabit 1704096000000
        (addHabit 1704096000000 1704096000000
          { initialState "2024-01-01" with
            newHabit := { name := "Run", reminderTime := "07:00" },
            showAddForm := true }))).habits,
      ∀ cd, h.completedDates = some cd → cd.Nodup :=
  ⟨Reachable.toggle _ 1704096000000 (Reachable.toggle _ 1704096000000
      (Reachable.add _ 1704096000000 1704096000000
        (Reachable.edit _ { name := "Run", reminderTime := "07:00" } true
          (Reachable.init "2024-01-01")))),
    completedDates_stay_duplicate_free.1 _
      (Reachable.toggle _ 1704096000000 (Reachable.toggle _ 1704096000000
        (Reachable.add _ 1704096000000 1704096000000
          (Reachable.edit _ { name := "Run", reminderTime := "07:00" } true
            (Reachable.init "2024-01-01")))))⟩

end HabitTracker
